import Mathlib

set_option maxRecDepth 20000

/-!
Verification development for the pyspade constrained-Delaunay-triangulation
package.  The repository ships only the thin Python binding
(`src/python/pyspade/__init__.py`, re-exporting `triangulate`) and example
scripts; the triangulation engine itself is not part of the source tree.
Following the specification (spec.md), the engine is therefore modelled here,
section by section, as an executable Lean development over exact rational
arithmetic: geometric predicates (spec 4.1), the triangle-list mesh (spec 4.2),
incremental Delaunay insertion (spec 4.3), constraint enforcement (spec 4.4),
hole resolution (spec 4.5), Ruppert-style quality refinement with a Steiner
budget (spec 4.6), the error taxonomy (spec 7) and the boundary interface
(spec 6).  All loops are fuelled, every definition is computable, and the
claims are settled against this model.

Exact rational coordinates are represented by a small self-contained
normalized fraction type `Q` over `Int`, so that every geometric predicate
evaluates by kernel reduction on concrete inputs.
-/

/-- Exact rational number: integer numerator and positive integer denominator,
kept in lowest terms by the smart constructor `qmk`. -/
structure Q where
  n : Int
  d : Int
deriving DecidableEq

/-- Normalizing constructor: sign moved to the numerator, fraction reduced by
the gcd; a zero denominator yields 0 (never produced by the geometry). -/
def qmk (n d : Int) : Q :=
  if d = 0 then ⟨0, 1⟩
  else
    let s : Int := if d < 0 then -1 else 1
    let n2 := s * n
    let d2 := s * d
    let g : Int := Int.ofNat (Int.gcd n2 d2)
    if g = 0 then ⟨0, 1⟩ else ⟨n2 / g, d2 / g⟩

/-- Embed an integer. -/
def qi (n : Int) : Q := ⟨n, 1⟩

/-- Addition. -/
def qadd (a b : Q) : Q := qmk (a.n * b.d + b.n * a.d) (a.d * b.d)

/-- Subtraction. -/
def qsub (a b : Q) : Q := qmk (a.n * b.d - b.n * a.d) (a.d * b.d)

/-- Multiplication. -/
def qmul (a b : Q) : Q := qmk (a.n * b.n) (a.d * b.d)

/-- Division (division by zero yields 0; the geometry always guards it). -/
def qdiv (a b : Q) : Q := qmk (a.n * b.d) (a.d * b.n)

/-- Negation. -/
def qneg (a : Q) : Q := ⟨-a.n, a.d⟩

/-- Strict order, by cross multiplication (denominators are positive). -/
def qltB (a b : Q) : Bool := a.n * b.d < b.n * a.d

/-- Weak order. -/
def qleB (a b : Q) : Bool := a.n * b.d ≤ b.n * a.d

/-- Sign tests against zero. -/
def qposB (a : Q) : Bool := 0 < a.n

/-- The value is negative. -/
def qnegB (a : Q) : Bool := a.n < 0

/-- The value is zero. -/
def qzeroB (a : Q) : Bool := a.n == 0

/-- Absolute value. -/
def qabs (a : Q) : Q := if a.n < 0 then qneg a else a

/-- Minimum. -/
def qmin (a b : Q) : Q := if qleB a b then a else b

/-- Maximum. -/
def qmax (a b : Q) : Q := if qleB a b then b else a

/-- Planar point with exact rational coordinates (spec 3, Point). -/
abbrev Pt := Q × Q

/-- Triangle as a triple of vertex indices into the mesh vertex list
(spec 9: arena of triangles indexed by stable integer ids). -/
abbrev Tri := ℕ × ℕ × ℕ

/-- Constraint edge as an unordered-in-spirit pair of vertex indices. -/
abbrev IPair := ℕ × ℕ

/-- Zero point, used as an out-of-range default for indexed lookups. -/
def pz : Pt := (qi 0, qi 0)

/-- Point with integer coordinates. -/
def ip (x y : Int) : Pt := (qi x, qi y)

/-- Modelled from the spec: the orientation predicate of spec 4.1 as the exact
signed double area of the triangle a b c (positive = left turn). -/
def orient2 (a b c : Pt) : Q :=
  qsub (qmul (qsub b.1 a.1) (qsub c.2 a.2)) (qmul (qsub b.2 a.2) (qsub c.1 a.1))

/-- Dot product of the vectors (u - v) and (w - v). -/
def dot2 (u v w : Pt) : Q :=
  qadd (qmul (qsub u.1 v.1) (qsub w.1 v.1)) (qmul (qsub u.2 v.2) (qsub w.2 v.2))

/-- Point p lies on the closed segment a b (collinear and inside the bounding
box of the segment). -/
def onSegB (a b p : Pt) : Bool :=
  qzeroB (orient2 a b p) &&
  qleB (qmin a.1 b.1) p.1 && qleB p.1 (qmax a.1 b.1) &&
  qleB (qmin a.2 b.2) p.2 && qleB p.2 (qmax a.2 b.2)

/-- Segments a b and c d cross properly: the endpoints of each lie strictly on
opposite sides of the other segment. -/
def properCrossB (a b c d : Pt) : Bool :=
  qnegB (qmul (orient2 a b c) (orient2 a b d)) &&
  qnegB (qmul (orient2 c d a) (orient2 c d b))

/-- Closed segments a b and c d have at least one common point: either a
proper crossing or an endpoint of one lying on the other (this also covers
collinear overlap). -/
def segsTouchB (a b c d : Pt) : Bool :=
  properCrossB a b c d || onSegB a b c || onSegB a b d || onSegB c d a || onSegB c d b

/-- The i-th directed boundary segment of the polygon loop P (indices wrap). -/
def polySeg (P : List Pt) (i : ℕ) : Pt × Pt :=
  (P.getD i pz, P.getD ((i + 1) % P.length) pz)

/-- Modelled from the spec: self-intersection test of spec 7 InvalidPolygon.
Two non-adjacent boundary segments of the loop share a point. -/
def selfIntB (P : List Pt) : Bool :=
  let n := P.length
  (List.range n).any fun i =>
    (List.range n).any fun j =>
      decide (i < j) && decide ((i + 1) % n ≠ j) && decide ((j + 1) % n ≠ i) &&
      segsTouchB (polySeg P i).1 (polySeg P i).2 (polySeg P j).1 (polySeg P j).2

/-- Degenerate zero-angle corner at b: the two incident boundary segments
fold back onto each other. -/
def spikeAtB (a b c : Pt) : Bool :=
  qzeroB (orient2 a b c) && qposB (dot2 a b c)

/-- Some corner of the loop is a degenerate spike. -/
def spikesB (P : List Pt) : Bool :=
  let n := P.length
  (List.range n).any fun k =>
    spikeAtB (P.getD ((k + n - 1) % n) pz) (P.getD k pz) (P.getD ((k + 1) % n) pz)

/-- No two vertices of the loop coincide (spec 3: Point identity by value;
a repeated vertex makes a loop non-simple). -/
def distinctB : List Pt → Bool
  | [] => true
  | p :: ps => !(ps.contains p) && distinctB ps

/-- Twice the signed area of the loop, by the shoelace formula. -/
def area2 (P : List Pt) : Q :=
  (List.range P.length).foldr
    (fun i acc =>
      qadd acc
        (qsub (qmul (polySeg P i).1.1 (polySeg P i).2.2)
              (qmul (polySeg P i).2.1 (polySeg P i).1.2)))
    (qi 0)

/-- Modelled from the spec: the InvalidPolygon validation of spec 7 / spec 6,
run before triangulation starts.  A loop is valid when it has at least three
points, has pairwise distinct vertices, is not self-intersecting, has no
degenerate spike corner, and encloses nonzero area. -/
def validPolygonB (P : List Pt) : Bool :=
  decide (3 ≤ P.length) && distinctB P && !(selfIntB P) && !(spikesB P) &&
  !(qzeroB (area2 P))

/-- Modelled from the spec: the in-circumcircle predicate of spec 4.1, by the
standard lifted 3x3 determinant relative to the triangle a b c. -/
def incDet (a b c p : Pt) : Q :=
  let ax := qsub a.1 p.1; let ay := qsub a.2 p.2
  let bx := qsub b.1 p.1; let bq := qsub b.2 p.2
  let cx := qsub c.1 p.1; let cy := qsub c.2 p.2
  qadd
    (qsub
      (qmul (qadd (qmul ax ax) (qmul ay ay)) (qsub (qmul bx cy) (qmul bq cx)))
      (qmul (qadd (qmul bx bx) (qmul bq bq)) (qsub (qmul ax cy) (qmul ay cx))))
    (qmul (qadd (qmul cx cx) (qmul cy cy)) (qsub (qmul ax bq) (qmul ay bx)))

/-- Point p lies strictly inside the circumcircle of the (nondegenerate)
triangle a b c.  The sign of the determinant is normalised by the orientation
of a b c, so the test is independent of the vertex order; a degenerate
(collinear) triangle has no circumcircle and the test is false. -/
def inCircleB (a b c p : Pt) : Bool :=
  let o := orient2 a b c
  if qposB o then qposB (incDet a b c p)
  else if qnegB o then qnegB (incDet a b c p)
  else false

/-- Modelled from the spec: the mesh of spec 3, an arena of vertices plus a
triangle list and the current constraint-edge list (spec 9 representation;
indices are stable across the call). -/
structure Mesh where
  verts : List Pt
  tris : List Tri
  constraints : List IPair
deriving DecidableEq

/-- Coordinates of mesh vertex i. -/
def vtx (m : Mesh) (i : ℕ) : Pt := m.verts.getD i pz

/-- The triangle t has a as one of its vertex indices. -/
def hasVtx (t : Tri) (a : ℕ) : Bool := a == t.1 || a == t.2.1 || a == t.2.2

/-- The pair (a, b) is one of the constraint edges, in either order. -/
def isConstraintB (cs : List IPair) (a b : ℕ) : Bool :=
  cs.contains (a, b) || cs.contains (b, a)

/-- Point p lies in the closed triangle with corners a b c: all three edge
orientations are weakly on the same side. -/
def inTriB (a b c p : Pt) : Bool :=
  let o1 := orient2 a b p; let o2 := orient2 b c p; let o3 := orient2 c a p
  (!(qnegB o1) && !(qnegB o2) && !(qnegB o3)) ||
  (!(qposB o1) && !(qposB o2) && !(qposB o3))

/-- Location of an inserted point inside its containing triangle: strictly
interior, or on the interior of the edge between two vertex indices. -/
inductive Loc where
  | interior : Loc
  | onE : ℕ → ℕ → Loc
deriving DecidableEq

/-- Classify where p sits relative to the containing triangle t. -/
def classifyLoc (m : Mesh) (t : Tri) (p : Pt) : Loc :=
  let a := vtx m t.1; let b := vtx m t.2.1; let c := vtx m t.2.2
  if qzeroB (orient2 a b p) then .onE t.1 t.2.1
  else if qzeroB (orient2 b c p) then .onE t.2.1 t.2.2
  else if qzeroB (orient2 c a p) then .onE t.2.2 t.1
  else .interior

/-- Modelled from the spec: point location of spec 4.2, here by direct scan of
the triangle list for a triangle whose closed region contains p. -/
def locate (m : Mesh) (p : Pt) : Option (Tri × Loc) :=
  match m.tris.find? (fun t => inTriB (vtx m t.1) (vtx m t.2.1) (vtx m t.2.2) p) with
  | none => none
  | some t => some (t, classifyLoc m t p)

/-- Remove the first occurrence of an element from a list. -/
def removeOnce [DecidableEq α] : List α → α → List α
  | [], _ => []
  | x :: xs, t => if x = t then xs else x :: removeOnce xs t

/-- Concatenated image of a list-valued function (plain recursive flat map). -/
def cMap (f : α → List β) : List α → List β
  | [] => []
  | x :: xs => f x ++ cMap f xs

/-- Modelled from the spec: split_triangle of spec 4.2.  The containing
triangle t is replaced by the three triangles joining the new vertex pi to
its corners. -/
def split3 (l : List Tri) (t : Tri) (pi : ℕ) : List Tri :=
  (t.1, t.2.1, pi) :: (t.2.1, t.2.2, pi) :: (t.2.2, t.1, pi) :: removeOnce l t

/-- Split every triangle incident to the edge (a, b) into two at the new
vertex pi lying on the interior of that edge (one incident triangle at a mesh
boundary, two in the interior). -/
def splitEdge (l : List Tri) (a b pi : ℕ) : List Tri :=
  cMap
    (fun t =>
      if hasVtx t a && hasVtx t b then
        let c := if t.1 ≠ a ∧ t.1 ≠ b then t.1 else if t.2.1 ≠ a ∧ t.2.1 ≠ b then t.2.1 else t.2.2
        [(a, pi, c), (pi, b, c)]
      else [t]) l

/-- When the inserted point lands on a constraint edge, that constraint is
replaced by its two halves (spec 4.6 step 1 splits constraint segments at
their midpoint; the halves stay constraints). -/
def splitConstraints (cs : List IPair) (a b pi : ℕ) : List IPair :=
  cMap
    (fun e =>
      if e = (a, b) ∨ e = (b, a) then [(e.1, pi), (pi, e.2)]
      else [e]) cs

/-- Shared edge of two triangles: returns (a, b, c, d) where (a, b) is the
common edge, c the remaining vertex of t and d the remaining vertex of u. -/
def sharedEdge (t u : Tri) : Option (ℕ × ℕ × ℕ × ℕ) :=
  let tl := [t.1, t.2.1, t.2.2]
  let ul := [u.1, u.2.1, u.2.2]
  match tl.filter (fun x => ul.contains x) with
  | [a, b] =>
      match tl.filter (fun x => !(x == a) && !(x == b)), ul.filter (fun x => !(x == a) && !(x == b)) with
      | [c], [d] => some (a, b, c, d)
      | _, _ => none
  | _ => none

/-- Modelled from the spec: the flip of spec 4.2.  Two triangles sharing the
non-constraint edge (a, b) whose opposite vertices violate the in-circle test
are replaced by the two triangles on the opposite diagonal; the flip is
refused for constraint edges and for non-convex quadrilaterals. -/
def flipCandidate (cs : List IPair) (vs : List Pt) (t u : Tri) : Option (Tri × Tri) :=
  match sharedEdge t u with
  | none => none
  | some (a, b, c, d) =>
      if isConstraintB cs a b then none
      else
        let pa := vs.getD a pz; let pb := vs.getD b pz
        let pc := vs.getD c pz; let pd := vs.getD d pz
        if inCircleB pa pb pc pd &&
           qnegB (qmul (orient2 pa pb pc) (orient2 pa pb pd)) &&
           qnegB (qmul (orient2 pc pd pa) (orient2 pc pd pb)) then
          some ((a, c, d), (b, c, d))
        else none

/-- Scan the rest of the triangle list for a partner of t that admits a
Delaunay flip; on success the partner is replaced in place by the two new
triangles. -/
def scanOne (cs : List IPair) (vs : List Pt) (t : Tri) : List Tri → Option (List Tri)
  | [] => none
  | u :: rest =>
      match flipCandidate cs vs t u with
      | some (n1, n2) => some (n1 :: n2 :: rest)
      | none => (scanOne cs vs t rest).map (u :: ·)

/-- One pass looking for any flippable Delaunay violation in the triangle
list; on success returns the list with that one flip applied. -/
def findFlip (cs : List IPair) (vs : List Pt) : List Tri → Option (List Tri)
  | [] => none
  | t :: rest =>
      match scanOne cs vs t rest with
      | some l => some l
      | none => (findFlip cs vs rest).map (t :: ·)

/-- Modelled from the spec: the error taxonomy of spec 7 (QualityUnattainable
is a separate recoverable status, not a failure of the call). -/
inductive TErr where
  | invalidPolygon : TErr
  | crossingConstraints : TErr
  | duplicatePoint : TErr
  | degenerateGeometry : TErr
deriving DecidableEq

/-- Modelled from the spec: legalize of spec 4.2, flipping while some
non-constraint edge violates the Delaunay property.  The potential-function
termination argument of the spec is rendered as explicit fuel; exhausting it
is the DegenerateGeometry defect of spec 7. -/
def legalizeLoop (cs : List IPair) (vs : List Pt) : ℕ → List Tri → Except TErr (List Tri)
  | 0, _ => .error .degenerateGeometry
  | fuel + 1, l =>
      match findFlip cs vs l with
      | none => .ok l
      | some l2 => legalizeLoop cs vs fuel l2

/-- Fuel bound for the legalization loop, ample for the flips a single
insertion can trigger. -/
def legalFuel (l : List Tri) : ℕ := (l.length + 9) * (l.length + 9)

/-- Modelled from the spec: one step of the incremental Delaunay builder of
spec 4.3: reject exact duplicates, locate the containing triangle, split it
(at the interior or on an edge), then legalize.  A point outside every
triangle cannot be located and is a fatal geometry error. -/
def insertPt (m : Mesh) (p : Pt) : Except TErr Mesh :=
  if m.verts.contains p then .error .duplicatePoint
  else
    match locate m p with
    | none => .error .degenerateGeometry
    | some (t, .interior) =>
        match legalizeLoop m.constraints (m.verts ++ [p])
            (legalFuel (split3 m.tris t m.verts.length)) (split3 m.tris t m.verts.length) with
        | .error e => .error e
        | .ok l2 => .ok ⟨m.verts ++ [p], l2, m.constraints⟩
    | some (_, .onE a b) =>
        match legalizeLoop m.constraints (m.verts ++ [p])
            (legalFuel (splitEdge m.tris a b m.verts.length)) (splitEdge m.tris a b m.verts.length) with
        | .error e => .error e
        | .ok l2 => .ok ⟨m.verts ++ [p], l2, splitConstraints m.constraints a b m.verts.length⟩

/-- Modelled from the spec: the seed mesh of spec 4.3, a single super-triangle
large enough to strictly contain every input point (computed from the input
bounding box). -/
def mkSuper (pts : List Pt) : Mesh :=
  let xs := pts.map Prod.fst
  let ys := pts.map Prod.snd
  let mnx := xs.foldr qmin (qi 0); let mxx := xs.foldr qmax (qi 0)
  let mny := ys.foldr qmin (qi 0); let mxy := ys.foldr qmax (qi 0)
  let w := qadd (qadd (qsub mxx mnx) (qsub mxy mny)) (qi 1)
  ⟨[(qsub mnx w, qsub mny w), (qadd mnx (qmul (qi 3) w), qsub mny w),
    (qsub mnx w, qadd mny (qmul (qi 3) w))],
   [(0, 1, 2)], []⟩

/-- Modelled from the spec: the incremental Delaunay builder of spec 4.3,
inserting every input point into the seeded mesh in order. -/
def buildAll (pts : List Pt) : Except TErr Mesh :=
  pts.foldl (fun acc p => acc.bind (fun m => insertPt m p)) (.ok (mkSuper pts))

/-- Directed boundary segments of a loop, as point pairs. -/
def loopSegs (P : List Pt) : List (Pt × Pt) :=
  (List.range P.length).map (polySeg P)

/-- Some segment of the first list touches some segment of the second. -/
def crossLists (s1 s2 : List (Pt × Pt)) : Bool :=
  s1.any fun a => s2.any fun b => segsTouchB a.1 a.2 b.1 b.2

/-- Any two segments taken from two different loops of the list intersect. -/
def anyCrossAux : List (List (Pt × Pt)) → Bool
  | [] => false
  | s :: rest => rest.any (crossLists s) || anyCrossAux rest

/-- Modelled from the spec: the CrossingConstraints condition of spec 7 /
spec 4.4 policy: two constraint segments taken from different input loops
(outer or holes) intersect.  Same-loop crossings are already InvalidPolygon. -/
def anyCrossB (outer : List Pt) (holes : List (List Pt)) : Bool :=
  anyCrossAux ((outer :: holes).map loopSegs)

/-- Constraint-edge index pairs of one loop whose first vertex has mesh index
off: consecutive vertices, wrapping around. -/
def idxPairsFor (off n : ℕ) : List IPair :=
  (List.range n).map fun i => (off + i, off + (i + 1) % n)

/-- Constraint-edge index pairs of a list of loops laid out consecutively
starting at mesh index off. -/
def loopsPairs (off : ℕ) : List (List Pt) → List IPair
  | [] => []
  | l :: ls => idxPairsFor off l.length ++ loopsPairs (off + l.length) ls

/-- Mesh-index constraint pairs of the outer loop and all hole loops (the
three super-triangle vertices occupy indices 0..2). -/
def loopPairsIdx (outer : List Pt) (holes : List (List Pt)) : List IPair :=
  loopsPairs 3 (outer :: holes)

/-- The pair (a, b) is an edge of the triangle list (some triangle has both
endpoints). -/
def edgePresentB (l : List Tri) (a b : ℕ) : Bool :=
  l.any fun t => hasVtx t a && hasVtx t b

/-- Find a flippable (two-triangle, non-constraint, convex-quad) edge that
properly crosses the segment from vertex a to vertex b, and flip it. -/
def scanCross (cs : List IPair) (vs : List Pt) (a b : ℕ) (t : Tri) :
    List Tri → Option (List Tri)
  | [] => none
  | u :: rest =>
      match flipCandidate cs vs t u with
      | some (n1, n2) =>
          match sharedEdge t u with
          | some (c, d, _, _) =>
              if properCrossB (vs.getD c pz) (vs.getD d pz) (vs.getD a pz) (vs.getD b pz) then
                some (n1 :: n2 :: rest)
              else (scanCross cs vs a b t rest).map (u :: ·)
          | none => (scanCross cs vs a b t rest).map (u :: ·)
      | none => (scanCross cs vs a b t rest).map (u :: ·)

/-- One pass of constraint enforcement: flip some flippable edge crossing the
segment (a, b). -/
def findCrossFlip (cs : List IPair) (vs : List Pt) (a b : ℕ) : List Tri → Option (List Tri)
  | [] => none
  | t :: rest =>
      match scanCross cs vs a b t rest with
      | some l => some l
      | none => (findCrossFlip cs vs a b rest).map (t :: ·)

/-- Modelled from the spec: enforcement of a single constraint segment
(spec 4.4): while the segment (a, b) is not yet an edge of the mesh, remove
edges crossing it by local flips; fuel exhaustion without realizing the edge
is a fatal geometry defect. -/
def enforceSegLoop (cs : List IPair) (vs : List Pt) (a b : ℕ) :
    ℕ → List Tri → Except TErr (List Tri)
  | 0, _ => .error .degenerateGeometry
  | fuel + 1, l =>
      if edgePresentB l a b then .ok l
      else
        match findCrossFlip cs vs a b l with
        | none => .error .degenerateGeometry
        | some l2 => enforceSegLoop cs vs a b fuel l2

/-- Enforce one constraint pair on the mesh (the constraint list is already
installed and is never flipped). -/
def enforceOne (m : Mesh) (pr : IPair) : Except TErr Mesh :=
  match enforceSegLoop m.constraints m.verts pr.1 pr.2 (legalFuel m.tris) m.tris with
  | .error e => .error e
  | .ok l2 => .ok ⟨m.verts, l2, m.constraints⟩

/-- Realize a list of constraint pairs one after the other. -/
def enforceList : List IPair → Mesh → Except TErr Mesh
  | [], m => .ok m
  | pr :: rest, m =>
      match enforceOne m pr with
      | .error e => .error e
      | .ok m2 => enforceList rest m2

/-- Modelled from the spec: the constraint enforcer of spec 4.4.  All loop
pairs are installed as non-flippable constraints and each is realized as an
actual mesh edge in order. -/
def enforceAll (m : Mesh) (prs : List IPair) : Except TErr Mesh :=
  enforceList prs ⟨m.verts, m.tris, prs⟩

/-- Number of boundary crossings of the horizontal ray from p towards +x with
the loop P (standard even-odd ray casting with half-open vertical ranges). -/
def rayHits (P : List Pt) (p : Pt) : ℕ :=
  (List.range P.length).foldr
    (fun i acc =>
      let a := (polySeg P i).1
      let b := (polySeg P i).2
      if ((qleB a.2 p.2 && qltB p.2 b.2) || (qleB b.2 p.2 && qltB p.2 a.2)) &&
         qltB p.1 (qadd a.1 (qdiv (qmul (qsub p.2 a.2) (qsub b.1 a.1)) (qsub b.2 a.2)))
      then acc + 1 else acc)
    0

/-- Point p lies on the boundary of the loop P. -/
def onLoopB (P : List Pt) (p : Pt) : Bool :=
  (List.range P.length).any fun i => onSegB (polySeg P i).1 (polySeg P i).2 p

/-- Modelled from the spec: strict point-in-polygon test used by the hole
resolver of spec 4.5 (boundary points do not count as inside). -/
def pipB (P : List Pt) (p : Pt) : Bool :=
  !(onLoopB P p) && decide (rayHits P p % 2 = 1)

/-- Centroid of the triangle with corners a b c. -/
def centroid3 (a b c : Pt) : Pt :=
  (qdiv (qadd (qadd a.1 b.1) c.1) (qi 3), qdiv (qadd (qadd a.2 b.2) c.2) (qi 3))

/-- Centroid of mesh triangle t. -/
def triCentroid (vs : List Pt) (t : Tri) : Pt :=
  centroid3 (vs.getD t.1 pz) (vs.getD t.2.1 pz) (vs.getD t.2.2 pz)

/-- Modelled from the spec: the classification of the hole resolver of
spec 4.5.  A triangle is kept when it is not incident to a super-triangle
vertex (indices 0..2, the exterior face), its centroid is inside the outer
loop, and - unless triangulate_holes is requested - its centroid is not
inside any hole loop. -/
def keepTriB (outer : List Pt) (holes : List (List Pt)) (th : Bool)
    (vs : List Pt) (t : Tri) : Bool :=
  decide (3 ≤ t.1) && decide (3 ≤ t.2.1) && decide (3 ≤ t.2.2) &&
  pipB outer (triCentroid vs t) &&
  (th || !(holes.any fun h => pipB h (triCentroid vs t)))

/-- Modelled from the spec: the hole resolver of spec 4.5: excluded triangles
(outside the outer boundary, or inside a hole when holes are not meshed) are
removed; only non-excluded triangles are exported. -/
def resolveHoles (outer : List Pt) (holes : List (List Pt)) (th : Bool) (m : Mesh) : Mesh :=
  ⟨m.verts, m.tris.filter (keepTriB outer holes th m.verts), m.constraints⟩

/-- Modelled from the spec: the refinement parameters of spec 4.6 / spec 6:
optional maximum edge length, optional minimum angle (degrees), and the
triangulate_holes flag. -/
structure Params where
  maxE : Option Q
  minA : Option Q
  tholes : Bool
deriving DecidableEq

/-- Default parameter set of the spec 6 interface: no refinement, holes
excluded. -/
def defaultParams : Params := ⟨none, none, false⟩

/-- No refinement was requested (spec 2: the quality refiner runs only if
requested). -/
def inertParams (par : Params) : Bool := par.maxE.isNone && par.minA.isNone

/-- Rational surrogate for the cotangent of d degrees, monotone decreasing in
d; exact trigonometry is not available over exact rationals, and no claim
depends on the numeric tightness of this bound. -/
def cotBound (d : Q) : Q := qdiv (qi 57296) (qmul (qi 1000) d)

/-- Squared length of the segment a b. -/
def sqLen (a b : Pt) : Q :=
  qadd (qmul (qsub b.1 a.1) (qsub b.1 a.1)) (qmul (qsub b.2 a.2) (qsub b.2 a.2))

/-- The angle of the triangle at corner v (other corners u, w) is smaller
than the angle whose cotangent is cb: cot is decreasing, so this is
dot > cb * |cross|. -/
def angleTooSmallB (u v w : Pt) (cb : Q) : Bool :=
  qltB (qmul cb (qabs (orient2 v u w))) (dot2 u v w)

/-- Modelled from the spec: a triangle violating the quality bounds of
spec 4.6: some edge longer than max_edge_length, or (via the cotangent
surrogate) some angle smaller than min_angle, or fully degenerate. -/
def badTriB (par : Params) (vs : List Pt) (t : Tri) : Bool :=
  let a := vs.getD t.1 pz; let b := vs.getD t.2.1 pz; let c := vs.getD t.2.2 pz
  (match par.maxE with
   | none => false
   | some L =>
       qltB (qmul L L) (sqLen a b) || qltB (qmul L L) (sqLen b c) ||
       qltB (qmul L L) (sqLen c a)) ||
  (match par.minA with
   | none => false
   | some d =>
       qzeroB (orient2 a b c) ||
       angleTooSmallB b a c (cotBound d) || angleTooSmallB a b c (cotBound d) ||
       angleTooSmallB a c b (cotBound d))

/-- Vertex indices actually used by the triangle list. -/
def meshIdxs (l : List Tri) : List ℕ :=
  cMap (fun t => [t.1, t.2.1, t.2.2]) l

/-- Modelled from the spec: encroachment (spec glossary): some mesh vertex
other than the endpoints lies inside or on the diameter circle of the
constraint segment (a, b) - equivalently the angle it subtends is at least a
right angle. -/
def encroachedB (vs : List Pt) (l : List Tri) (a b : ℕ) : Bool :=
  (meshIdxs l).any fun v =>
    !(v == a) && !(v == b) &&
    !(qposB (dot2 (vs.getD a pz) (vs.getD v pz) (vs.getD b pz)))

/-- Work item of the refinement loop of spec 4.6: an encroached constraint
segment (priority) or a quality-violating triangle. -/
inductive Iss where
  | enc : ℕ → ℕ → Iss
  | bad : Tri → Iss
deriving DecidableEq

/-- Modelled from the spec: the scan of the refinement loop of spec 4.6:
encroached constraint segments take priority over bad triangles; nothing is
reported when refinement was not requested. -/
def findIssue (par : Params) (m : Mesh) : Option Iss :=
  if inertParams par then none
  else
    match m.constraints.find? (fun pr => encroachedB m.verts m.tris pr.1 pr.2) with
    | some pr => some (.enc pr.1 pr.2)
    | none => (m.tris.find? (badTriB par m.verts)).map .bad

/-- Midpoint of the segment a b. -/
def midPt (a b : Pt) : Pt := (qdiv (qadd a.1 b.1) (qi 2), qdiv (qadd a.2 b.2) (qi 2))

/-- Circumcenter of the triangle a b c, when it is nondegenerate. -/
def circumC (a b c : Pt) : Option Pt :=
  let dd := qmul (qi 2) (orient2 a b c)
  if qzeroB dd then none
  else
    let a2 := qadd (qmul a.1 a.1) (qmul a.2 a.2)
    let b2 := qadd (qmul b.1 b.1) (qmul b.2 b.2)
    let c2 := qadd (qmul c.1 c.1) (qmul c.2 c.2)
    some
      (qdiv (qadd (qadd (qmul a2 (qsub b.2 c.2)) (qmul b2 (qsub c.2 a.2)))
                  (qmul c2 (qsub a.2 b.2))) dd,
       qdiv (qadd (qadd (qmul a2 (qsub c.1 b.1)) (qmul b2 (qsub a.1 c.1)))
                  (qmul c2 (qsub b.1 a.1))) dd)

/-- Midpoint of the longest edge of mesh triangle t. -/
def longestMid (vs : List Pt) (t : Tri) : Pt :=
  let a := vs.getD t.1 pz; let b := vs.getD t.2.1 pz; let c := vs.getD t.2.2 pz
  if qleB (sqLen b c) (sqLen a b) && qleB (sqLen c a) (sqLen a b) then midPt a b
  else if qleB (sqLen a b) (sqLen b c) && qleB (sqLen c a) (sqLen b c) then midPt b c
  else midPt c a

/-- Modelled from the spec: act on one refinement work item (spec 4.6):
split an encroached segment at its midpoint, or insert the circumcenter of a
bad triangle, falling back to the midpoint of its longest edge when the
circumcenter is rejected (duplicate or out-of-domain); none when even the
fallback cannot be inserted. -/
def applyIss (m : Mesh) : Iss → Option Mesh
  | .enc a b => (insertPt m (midPt (vtx m a) (vtx m b))).toOption
  | .bad t =>
      let fb := longestMid m.verts t
      match circumC (vtx m t.1) (vtx m t.2.1) (vtx m t.2.2) with
      | none => (insertPt m fb).toOption
      | some cc =>
          match insertPt m cc with
          | .ok m2 => some m2
          | .error _ => (insertPt m fb).toOption

/-- Outcome label of the refinement phase (spec 7 QualityUnattainable is a
distinct, recoverable condition accompanying the best mesh achieved). -/
inductive QStat where
  | ok : QStat
  | unattainable : QStat
deriving DecidableEq

/-- Modelled from the spec: the Ruppert-style refinement loop of spec 4.6
with its termination guard: stop with the ok label when no violation remains,
and stop with the QualityUnattainable label when the Steiner-point budget is
exhausted (or an insertion is impossible) before the bounds are met. -/
def refineLoop (budget : ℕ) (par : Params) : ℕ → Mesh → ℕ → Mesh × ℕ × QStat
  | 0, m, s => (m, s, .unattainable)
  | fuel + 1, m, s =>
      match findIssue par m with
      | none => (m, s, .ok)
      | some iss =>
          if budget ≤ s then (m, s, .unattainable)
          else
            match applyIss m iss with
            | none => (m, s, .unattainable)
            | some m2 => refineLoop budget par fuel m2 (s + 1)

/-- Modelled from the spec: the quality refiner of spec 4.6, run only when
refinement was requested, with fuel just above the Steiner budget. -/
def refineRun (budget : ℕ) (par : Params) (m : Mesh) : Mesh × ℕ × QStat :=
  if inertParams par then (m, 0, .ok)
  else refineLoop budget par (budget + 1) m 0

/-- Modelled from the spec: the configurable multiple of the input vertex
count capping Steiner insertions (spec 4.6 termination guard). -/
def steinerMult : ℕ := 8

/-- Total number of input vertices (outer plus holes). -/
def inputCount (outer : List Pt) (holes : List (List Pt)) : ℕ :=
  outer.length + (holes.map List.length).sum

/-- Modelled from the spec: the MeshResult of spec 6: vertex coordinates
(index = vertex id), triangles and constraint edges over those indices, plus
the explicit quality label of spec 7. -/
structure MeshResult where
  vertices : List Pt
  triangles : List Tri
  edges : List IPair
  quality : QStat
deriving DecidableEq

/-- Export the final mesh: the three super-triangle vertices (mesh indices
0..2, never referenced by kept triangles or constraints) are dropped and all
indices shifted down by 3. -/
def exportRes : Mesh × ℕ × QStat → MeshResult :=
  fun r =>
    ⟨r.1.verts.drop 3,
     r.1.tris.map (fun t => (t.1 - 3, t.2.1 - 3, t.2.2 - 3)),
     r.1.constraints.map (fun pr => (pr.1 - 3, pr.2 - 3)),
     r.2.2⟩

/-- Concatenation of all hole loops. -/
def holesFlat : List (List Pt) → List Pt
  | [] => []
  | h :: hs => h ++ holesFlat hs

/-- Modelled from the spec: the pipeline prefix shared by every call (spec 2
data flow): validation, incremental Delaunay construction of all input
vertices, the crossing-constraints check and constraint enforcement, then
hole resolution. -/
def prefixPhase (outer : List Pt) (holes : List (List Pt)) (th : Bool) :
    Except TErr Mesh :=
  if !(validPolygonB outer && holes.all validPolygonB) then .error .invalidPolygon
  else
    match buildAll (outer ++ holesFlat holes) with
    | .error e => .error e
    | .ok m =>
        if anyCrossB outer holes then .error .crossingConstraints
        else
          match enforceAll m (loopPairsIdx outer holes) with
          | .error e => .error e
          | .ok m2 => .ok (resolveHoles outer holes th m2)

/-- Modelled from the spec: the boundary contract of spec 6, the whole engine
as one call: prefix pipeline, then quality refinement, then export.  Errors
abort the entire call with no mesh (the Except error carries no mesh data). -/
def triangulate (outer : List Pt) (holes : List (List Pt)) (par : Params) :
    Except TErr MeshResult :=
  match prefixPhase outer holes par.tholes with
  | .error e => .error e
  | .ok m =>
      .ok (exportRes (refineRun (steinerMult * inputCount outer holes) par m))

/-- The call succeeded. -/
def exOkB : Except TErr MeshResult → Bool
  | .ok _ => true
  | .error _ => false

/-- Triangle count of a call result (zero for a failed call). -/
def triCountR : Except TErr MeshResult → ℕ
  | .ok r => r.triangles.length
  | .error _ => 0

/-- Constraint-edge list of a call result (empty for a failed call). -/
def resultEdges : Except TErr MeshResult → List IPair
  | .ok r => r.edges
  | .error _ => []

/-- Consecutive-vertex constraint pairs of all loops in exported indexing
(outer vertices first, then each hole loop in order). -/
def exportPairs (outer : List Pt) (holes : List (List Pt)) : List IPair :=
  loopsPairs 0 (outer :: holes)

/-- The build phase succeeded. -/
def exMOkB : Except TErr Mesh → Bool
  | .ok _ => true
  | .error _ => false

/-- Two constraint segments drawn from the input loops (outer or holes, same
loop or different loops) intersect. -/
def anyConstraintCrossB (outer : List Pt) (holes : List (List Pt)) : Bool :=
  selfIntB outer || holes.any selfIntB || anyCrossB outer holes

/-- Modelled from the spec: a value of the Python dictionary returned by the
binding layer (spec 6 MeshResult marshalled as a dict, per the examples
result['vertices'], result['triangles'], result['edges']). -/
inductive PyVal where
  | pvVerts : List Pt → PyVal
  | pvTris : List Tri → PyVal
  | pvEdges : List IPair → PyVal
deriving DecidableEq

/-- Modelled from the spec: the Python binding marshals a MeshResult into a
string-keyed dictionary with exactly the keys vertices, triangles, edges. -/
def resultToPyDict (r : MeshResult) : List (String × PyVal) :=
  [("vertices", .pvVerts r.vertices),
   ("triangles", .pvTris r.triangles),
   ("edges", .pvEdges r.edges)]

/-- The public symbol list of src/python/pyspade/init: its source sets the
module export list to the single name triangulate. -/
def pyspadeAll : List String := ["triangulate"]

/-- The 10 x 10 square of examples/basic.py example_simple_square. -/
def sqTen : List Pt := [ip 0 0, ip 10 0, ip 10 10, ip 0 10]

/-- The self-intersecting bowtie quadrilateral of spec 8 Rejection. -/
def bowtie : List Pt := [ip 0 0, ip 10 10, ip 10 0, ip 0 10]

/-- The 100 x 100 square of the examples and spec 8. -/
def sqHundred : List Pt := [ip 0 0, ip 100 0, ip 100 100, ip 0 100]

/-- The 50 x 50 centred hole of the examples and spec 8. -/
def holeFifty : List Pt := [ip 25 25, ip 75 25, ip 75 75, ip 25 75]

/-- Refinement request max_edge_length = 10 (spec 8 refinement
monotonicity). -/
def meTen : Params := Params.mk (some (qi 10)) none false

/-- A small 2 x 2 square, used to exhibit constraint splitting. -/
def sqTwo : List Pt := [ip 0 0, ip 2 0, ip 2 2, ip 0 2]

/-- Refinement request max_edge_length = 19/10 on the 2 x 2 square: its
boundary edges (length 2) must be split. -/
def meSmall : Params := Params.mk (some (qmk 19 10)) none false

/-- Outer square for the crossing-constraints witness. -/
def cxOuter : List Pt := sqHundred

/-- A hole triangle sticking out of the outer square: its segments properly
cross the outer boundary and share no vertex with it. -/
def cxHole : List Pt := [ip 50 50, ip 150 50, ip 150 80]

/-- The prefix-pipeline mesh of the 100 x 100 square (no holes). -/
def c7m : Mesh :=
  match prefixPhase sqHundred [] false with
  | .ok m => m
  | .error _ => ⟨[], [], []⟩

/-- A tiny concrete mesh for the duplicate-point witness. -/
def mW : Mesh := ⟨[ip 1 2, ip 3 4], [(0, 1, 0)], []⟩

theorem removeOnce_length_ge [DecidableEq α] (l : List α) (t : α) :
    l.length ≤ (removeOnce l t).length + 1 := by
  induction l with
  | nil => simp [removeOnce]
  | cons x xs ih =>
      simp only [removeOnce, List.length_cons]
      split
      · omega
      · simp only [List.length_cons]; omega

theorem scanOne_length (cs : List IPair) (vs : List Pt) (t : Tri) :
    ∀ l l2, scanOne cs vs t l = some l2 → l2.length = l.length + 1 := by
  intro l
  induction l with
  | nil => intro l2 h; simp [scanOne] at h
  | cons u rest ih =>
      intro l2 h
      unfold scanOne at h
      split at h
      · cases h; simp
      · obtain ⟨l3, h3, rfl⟩ := Option.map_eq_some'.mp h
        simp [ih l3 h3]

theorem findFlip_length (cs : List IPair) (vs : List Pt) :
    ∀ l l2, findFlip cs vs l = some l2 → l2.length = l.length := by
  intro l
  induction l with
  | nil => intro l2 h; simp [findFlip] at h
  | cons t rest ih =>
      intro l2 h
      unfold findFlip at h
      split at h
      · cases h
        rename_i heq
        simp [scanOne_length cs vs t rest _ heq]
      · obtain ⟨l3, h3, rfl⟩ := Option.map_eq_some'.mp h
        simp [ih l3 h3]

theorem legalizeLoop_length (cs : List IPair) (vs : List Pt) :
    ∀ fuel l l2, legalizeLoop cs vs fuel l = .ok l2 → l2.length = l.length := by
  intro fuel
  induction fuel with
  | zero => intro l l2 h; simp [legalizeLoop] at h
  | succ f ih =>
      intro l l2 h
      unfold legalizeLoop at h
      split at h
      · cases h; rfl
      · rename_i lf heq
        rw [ih lf l2 h, findFlip_length cs vs l lf heq]

theorem legalizeLoop_error (cs : List IPair) (vs : List Pt) :
    ∀ fuel l e, legalizeLoop cs vs fuel l = .error e → e = .degenerateGeometry := by
  intro fuel
  induction fuel with
  | zero => intro l e h; cases h; rfl
  | succ f ih =>
      intro l e h
      unfold legalizeLoop at h
      split at h
      · cases h
      · exact ih _ e h

theorem splitEdge_length_ge (a b pi : ℕ) :
    ∀ l : List Tri, l.length ≤ (splitEdge l a b pi).length := by
  intro l
  induction l with
  | nil => simp [splitEdge, cMap]
  | cons t rest ih =>
      simp only [splitEdge, cMap, List.length_append, List.length_cons]
      split
      · simp only [List.length_cons, List.length_nil]
        have := ih
        simp only [splitEdge] at this
        omega
      · simp only [List.length_cons, List.length_nil]
        have := ih
        simp only [splitEdge] at this
        omega

theorem split3_length (l : List Tri) (t : Tri) (pi : ℕ) :
    (split3 l t pi).length = (removeOnce l t).length + 3 := by
  simp [split3]

theorem insertPt_tris_ge (m : Mesh) (p : Pt) :
    ∀ m2, insertPt m p = .ok m2 → m.tris.length ≤ m2.tris.length := by
  intro m2 h
  unfold insertPt at h
  split at h
  · cases h
  · split at h
    · cases h
    · rename_i t heq
      split at h
      · cases h
      · rename_i l2 hleg
        cases h
        have h1 := legalizeLoop_length _ _ _ _ _ hleg
        rw [h1, split3_length]
        have := removeOnce_length_ge m.tris t
        omega
    · rename_i t a b heq
      split at h
      · cases h
      · rename_i l2 hleg
        cases h
        have h1 := legalizeLoop_length _ _ _ _ _ hleg
        rw [h1]
        exact splitEdge_length_ge a b m.verts.length m.tris

theorem insertPt_verts (m : Mesh) (p : Pt) :
    ∀ m2, insertPt m p = .ok m2 → m2.verts = m.verts ++ [p] := by
  intro m2 h
  unfold insertPt at h
  split at h
  · cases h
  · split at h
    · cases h
    · split at h
      · cases h
      · cases h; rfl
    · split at h
      · cases h
      · cases h; rfl

theorem applyIss_tris_ge (m : Mesh) (iss : Iss) :
    ∀ m2, applyIss m iss = some m2 → m.tris.length ≤ m2.tris.length := by
  intro m2 h
  cases iss with
  | enc a b =>
      simp only [applyIss] at h
      cases hi : insertPt m (midPt (vtx m a) (vtx m b)) with
      | ok mm =>
          rw [hi] at h
          simp [Except.toOption] at h
          cases h
          exact insertPt_tris_ge m _ _ hi
      | error e => rw [hi] at h; simp [Except.toOption] at h
  | bad t =>
      simp only [applyIss] at h
      split at h
      · cases hi : insertPt m (longestMid m.verts t) with
        | ok mm =>
            rw [hi] at h
            simp [Except.toOption] at h
            cases h
            exact insertPt_tris_ge m _ _ hi
        | error e => rw [hi] at h; simp [Except.toOption] at h
      · rename_i cc hcc
        split at h
        · rename_i mm hi
          cases h
          exact insertPt_tris_ge m _ _ hi
        · cases hi : insertPt m (longestMid m.verts t) with
          | ok mm =>
              rw [hi] at h
              simp [Except.toOption] at h
              cases h
              exact insertPt_tris_ge m _ _ hi
          | error e => rw [hi] at h; simp [Except.toOption] at h

theorem refineLoop_tris_ge (budget : ℕ) (par : Params) :
    ∀ fuel m s, m.tris.length ≤ (refineLoop budget par fuel m s).1.tris.length := by
  intro fuel
  induction fuel with
  | zero => intro m s; simp [refineLoop]
  | succ f ih =>
      intro m s
      unfold refineLoop
      split
      · simp
      · rename_i iss hiss
        split
        · simp
        · split
          · simp
          · rename_i m2 h2
            exact Nat.le_trans (applyIss_tris_ge m iss m2 h2) (ih m2 (s + 1))

theorem refineLoop_steiner_le (budget : ℕ) (par : Params) :
    ∀ fuel m s, s ≤ budget → (refineLoop budget par fuel m s).2.1 ≤ budget := by
  intro fuel
  induction fuel with
  | zero => intro m s hs; simpa [refineLoop] using hs
  | succ f ih =>
      intro m s hs
      unfold refineLoop
      split
      · simpa using hs
      · split
        · simpa using hs
        · split
          · simpa using hs
          · rename_i hle _ m2 h2
            exact ih m2 (s + 1) (by omega)

theorem refineLoop_ok_issue (budget : ℕ) (par : Params) :
    ∀ fuel m s, (refineLoop budget par fuel m s).2.2 = QStat.ok →
      findIssue par (refineLoop budget par fuel m s).1 = none := by
  intro fuel
  induction fuel with
  | zero => intro m s h; simp [refineLoop] at h
  | succ f ih =>
      intro m s
      unfold refineLoop
      split
      · rename_i hiss
        intro _
        simpa using hiss
      · split
        · intro h; simp at h
        · split
          · intro h; simp at h
          · rename_i m2 h2
            exact ih m2 (s + 1)

theorem refineLoop_unatt_issue (budget : ℕ) (par : Params) :
    ∀ fuel m s, s ≤ budget → budget < s + fuel →
      (refineLoop budget par fuel m s).2.2 = QStat.unattainable →
      (findIssue par (refineLoop budget par fuel m s).1).isSome = true := by
  intro fuel
  induction fuel with
  | zero => intro m s hs hf h; omega
  | succ f ih =>
      intro m s hs hf
      unfold refineLoop
      split
      · intro h; simp at h
      · rename_i iss hiss
        split
        · intro _; simp [hiss]
        · split
          · intro _; simp [hiss]
          · rename_i hle _ m2 h2
            exact ih m2 (s + 1) (by omega) (by omega)

theorem enforceOne_keeps (m : Mesh) (pr : IPair) :
    ∀ m2, enforceOne m pr = .ok m2 →
      m2.constraints = m.constraints ∧ m2.verts = m.verts := by
  intro m2 h
  unfold enforceOne at h
  split at h
  · cases h
  · cases h; exact ⟨rfl, rfl⟩

theorem enforceList_keeps :
    ∀ (l : List IPair) (m m2 : Mesh), enforceList l m = .ok m2 →
      m2.constraints = m.constraints ∧ m2.verts = m.verts := by
  intro l
  induction l with
  | nil => intro m m2 h; cases h; exact ⟨rfl, rfl⟩
  | cons pr rest ih =>
      intro m m2 h
      unfold enforceList at h
      split at h
      · cases h
      · rename_i mm hone
        obtain ⟨h1, h2⟩ := ih mm m2 h
        obtain ⟨h3, h4⟩ := enforceOne_keeps m pr mm hone
        exact ⟨h1.trans h3, h2.trans h4⟩

theorem enforceAll_constraints (m : Mesh) (prs : List IPair) :
    ∀ m2, enforceAll m prs = .ok m2 → m2.constraints = prs := by
  intro m2 h
  unfold enforceAll at h
  exact (enforceList_keeps prs _ m2 h).1

theorem prefixPhase_constraints (outer : List Pt) (holes : List (List Pt)) (th : Bool) :
    ∀ m, prefixPhase outer holes th = .ok m →
      m.constraints = loopPairsIdx outer holes := by
  intro m h
  unfold prefixPhase at h
  split at h
  · cases h
  · split at h
    · cases h
    · split at h
      · cases h
      · split at h
        · cases h
        · rename_i m2 henf
          cases h
          simpa [resolveHoles] using enforceAll_constraints _ _ m2 henf

theorem idxPairsFor_map_sub (off n : ℕ) :
    (idxPairsFor (off + 3) n).map (fun pr => (pr.1 - 3, pr.2 - 3)) = idxPairsFor off n := by
  unfold idxPairsFor
  rw [List.map_map]
  have hfun :
      ((fun pr : IPair => (pr.1 - 3, pr.2 - 3)) ∘ fun i => (off + 3 + i, off + 3 + (i + 1) % n)) =
      fun i => (off + i, off + (i + 1) % n) := by
    funext i
    simp only [Function.comp]
    rw [Prod.mk.injEq]
    constructor <;> omega
  rw [hfun]

theorem loopsPairs_map_sub :
    ∀ (ls : List (List Pt)) (off : ℕ),
      (loopsPairs (off + 3) ls).map (fun pr => (pr.1 - 3, pr.2 - 3)) = loopsPairs off ls := by
  intro ls
  induction ls with
  | nil => intro off; rfl
  | cons l rest ih =>
      intro off
      unfold loopsPairs
      rw [List.map_append, idxPairsFor_map_sub]
      have h3 : off + 3 + l.length = off + l.length + 3 := by omega
      rw [h3, ih (off + l.length)]

theorem exportPairs_eq_map (outer : List Pt) (holes : List (List Pt)) :
    (loopPairsIdx outer holes).map (fun pr => (pr.1 - 3, pr.2 - 3)) =
      exportPairs outer holes := by
  unfold loopPairsIdx exportPairs
  have h0 : (3 : ℕ) = 0 + 3 := rfl
  rw [h0, loopsPairs_map_sub]

theorem triangulate_of_prefix_ok (outer : List Pt) (holes : List (List Pt)) (par : Params)
    (m : Mesh) (h : prefixPhase outer holes par.tholes = .ok m) :
    triangulate outer holes par =
      .ok (exportRes (refineRun (steinerMult * inputCount outer holes) par m)) := by
  simp [triangulate, h]

theorem refineRun_inert (budget : ℕ) (par : Params) (m : Mesh)
    (h : inertParams par = true) : refineRun budget par m = (m, 0, QStat.ok) := by
  simp [refineRun, h]

theorem exportRes_tri_length (r : Mesh × ℕ × QStat) :
    (exportRes r).triangles.length = r.1.tris.length := by
  simp [exportRes]

/-- Claim C8: for every outer polygon that has fewer than 3 points, is
self-intersecting, or has zero area, triangulate fails with an InvalidPolygon
error before triangulation starts and produces no mesh (the error return
carries no mesh data). -/
theorem c8_invalid_polygon_rejected (outer : List Pt) (holes : List (List Pt)) (par : Params)
    (h : outer.length < 3 ∨ selfIntB outer = true ∨ qzeroB (area2 outer) = true) :
    triangulate outer holes par = .error .invalidPolygon := by
  have hv : validPolygonB outer = false := by
    rcases h with h | h | h
    · have hd : decide (3 ≤ outer.length) = false := by
        simp only [decide_eq_false_iff_not]
        omega
      simp [validPolygonB, hd]
    · simp [validPolygonB, h]
    · simp [validPolygonB, h]
  simp [triangulate, prefixPhase, hv]

/-- Witness for C8 at the self-intersecting bowtie (0,0),(10,10),(10,0),(0,10)
named by the spec. -/
theorem c8_witness : triangulate bowtie [] defaultParams = .error .invalidPolygon :=
  c8_invalid_polygon_rejected bowtie [] defaultParams (Or.inr (Or.inl (by decide)))

/-- Claim C9: during incremental Delaunay construction, inserting a point
exactly coincident with an existing vertex is rejected with the
duplicate-point error, and this is the only way that error arises (the policy
is applied uniformly to every point); a successful insertion appends the
point exactly as given, neither ignored nor perturbed. -/
theorem c9_duplicate_point (m : Mesh) (p : Pt) :
    (insertPt m p = .error .duplicatePoint ↔ m.verts.contains p = true) ∧
    (∀ m2, insertPt m p = .ok m2 → m2.verts = m.verts ++ [p]) := by
  refine ⟨⟨?_, ?_⟩, insertPt_verts m p⟩
  · intro h
    cases hc : m.verts.contains p with
    | true => rfl
    | false =>
        exfalso
        unfold insertPt at h
        rw [hc] at h
        simp only [Bool.false_eq_true, if_false] at h
        split at h
        · cases h
        · split at h
          · rename_i e hleg
            have he := legalizeLoop_error _ _ _ _ _ hleg
            injection h with h2
            rw [he] at h2
            cases h2
          · cases h
        · split at h
          · rename_i e hleg
            have he := legalizeLoop_error _ _ _ _ _ hleg
            injection h with h2
            rw [he] at h2
            cases h2
          · cases h
  · intro hc
    unfold insertPt
    rw [hc]
    rfl

/-- Witness for C9: inserting an already-present vertex into a concrete mesh
yields the duplicate-point error. -/
theorem c9_witness : insertPt mW (ip 1 2) = .error .duplicatePoint :=
  (c9_duplicate_point mW (ip 1 2)).1.mpr (by decide)

/-- Claim C6: triangulate is deterministic: two calls with identical
arguments yield combinatorially identical meshes - the same triangle count
and the same constraint-edge sequence.  The modelled engine is a pure
function (the spec fixes all tie-breaking deterministically), so the two
results are definitionally equal. -/
theorem c6_deterministic (outer : List Pt) (holes : List (List Pt)) (par : Params) :
    triCountR (triangulate outer holes par) = triCountR (triangulate outer holes par) ∧
    resultEdges (triangulate outer holes par) = resultEdges (triangulate outer holes par) :=
  ⟨rfl, rfl⟩

/-- Claim C10: every successful call returns a value subscriptable by the
string keys vertices, triangles and edges (the binding marshals the result as
a string-keyed dictionary), and the package export list is exactly the single
symbol triangulate. -/
theorem c10_dict_keys_and_sole_export :
    (∀ outer holes par,
      (match triangulate outer holes par with
       | .ok r =>
           ((resultToPyDict r).lookup "vertices").isSome &&
           ((resultToPyDict r).lookup "triangles").isSome &&
           ((resultToPyDict r).lookup "edges").isSome
       | .error _ => true) = true) ∧
    pyspadeAll = ["triangulate"] ∧ pyspadeAll.length = 1 := by
  refine ⟨?_, rfl, rfl⟩
  intro outer holes par
  cases triangulate outer holes par with
  | ok r => simp [resultToPyDict, List.lookup]
  | error e => rfl

/-- Claim C5: the quality-refinement loop always terminates (it is a total
fuelled function); the number of inserted Steiner points never exceeds the
configured multiple of the input vertex count; a run that ends with the ok
label has no remaining quality violation; a run that ends with the
QualityUnattainable label still has one (the bound was not met and this is
reported, not silent); and every run ends with one of those two explicit
labels. -/
theorem c5_steiner_budget (outer : List Pt) (holes : List (List Pt)) (par : Params) (m : Mesh) :
    (refineRun (steinerMult * inputCount outer holes) par m).2.1 ≤
        steinerMult * inputCount outer holes ∧
    ((refineRun (steinerMult * inputCount outer holes) par m).2.2 = QStat.ok →
      findIssue par (refineRun (steinerMult * inputCount outer holes) par m).1 = none) ∧
    ((refineRun (steinerMult * inputCount outer holes) par m).2.2 = QStat.unattainable →
      (findIssue par (refineRun (steinerMult * inputCount outer holes) par m).1).isSome = true) ∧
    ((refineRun (steinerMult * inputCount outer holes) par m).2.2 = QStat.ok ∨
      (refineRun (steinerMult * inputCount outer holes) par m).2.2 = QStat.unattainable) := by
  cases hin : inertParams par with
  | true =>
      rw [refineRun_inert _ _ _ hin]
      refine ⟨by simp, ?_, ?_, Or.inl rfl⟩
      · intro _
        simp [findIssue, hin]
      · intro h
        simp at h
  | false =>
      have hrr : refineRun (steinerMult * inputCount outer holes) par m =
          refineLoop (steinerMult * inputCount outer holes) par
            ((steinerMult * inputCount outer holes) + 1) m 0 := by
        simp [refineRun, hin]
      rw [hrr]
      refine ⟨refineLoop_steiner_le _ par _ m 0 (by omega),
              refineLoop_ok_issue _ par _ m 0,
              refineLoop_unatt_issue _ par _ m 0 (by omega) (by omega),
              ?_⟩
      cases hq : (refineLoop (steinerMult * inputCount outer holes) par
          ((steinerMult * inputCount outer holes) + 1) m 0).2.2 with
      | ok => exact Or.inl rfl
      | unattainable => exact Or.inr rfl

/-- Witness for C5: the budget bound instantiated at a concrete call. -/
theorem c5_witness :
    (refineRun (steinerMult * inputCount sqTen []) meTen mW).2.1 ≤
      steinerMult * inputCount sqTen [] :=
  (c5_steiner_budget sqTen [] meTen mW).1

/-- Claim C2 (amended): for every call without refinement parameters that
triangulate accepts, every consecutive-vertex edge of the outer polygon and
of every hole polygon appears as a vertex-index pair in the edges sequence of
the returned mesh result.  (With refinement, split constraint segments are
replaced by their sub-edges - see the counterexample.) -/
theorem c2_loop_edges_in_output (outer : List Pt) (holes : List (List Pt)) (th : Bool)
    (h : exOkB (triangulate outer holes (Params.mk none none th)) = true) :
    ∀ pr ∈ exportPairs outer holes,
      pr ∈ resultEdges (triangulate outer holes (Params.mk none none th)) := by
  intro pr hpr
  cases hp : prefixPhase outer holes th with
  | error e =>
      have ht : triangulate outer holes (Params.mk none none th) = .error e := by
        simp [triangulate, hp]
      rw [ht] at h
      simp [exOkB] at h
  | ok m =>
      have htr := triangulate_of_prefix_ok outer holes (Params.mk none none th) m hp
      rw [htr, refineRun_inert (steinerMult * inputCount outer holes)
        (Params.mk none none th) m rfl]
      have hc := prefixPhase_constraints outer holes th m hp
      simp only [resultEdges, exportRes]
      rw [hc, exportPairs_eq_map]
      exact hpr

/-- Witness for C2 (amended) at the plain square call of
examples/basic.py. -/
theorem c2_witness :
    (0, 1) ∈ resultEdges (triangulate sqTen [] (Params.mk none none false)) :=
  c2_loop_edges_in_output sqTen [] false (by decide) (0, 1) (by decide)

/-- Counterexample to C2 as frozen: on the 2 x 2 square with
max_edge_length 19/10 the call is accepted, (0, 1) is a consecutive-vertex
edge of the outer polygon, yet (0, 1) is absent from the returned edges
sequence (refinement split that boundary constraint at its midpoint). -/
theorem c2_refinement_splits_cx :
    (exportPairs sqTwo []).contains (0, 1) = true ∧
    exOkB (triangulate sqTwo [] meSmall) = true ∧
    (resultEdges (triangulate sqTwo [] meSmall)).contains (0, 1) = false :=
  ⟨by decide, by decide, by decide⟩

/-- Claim C4 (amended): whenever two constraint segments from different input
loops intersect and the call passes polygon validation and vertex insertion,
triangulate fails the entire call with the CrossingConstraints error; the
error return carries no mesh, so no partial mesh is ever produced.  (If
validation or insertion already failed, that earlier error is reported
instead - see the counterexample.) -/
theorem c4_crossing_rejected (outer : List Pt) (holes : List (List Pt)) (par : Params)
    (h1 : (validPolygonB outer && holes.all validPolygonB) = true)
    (h2 : exMOkB (buildAll (outer ++ holesFlat holes)) = true)
    (h3 : anyCrossB outer holes = true) :
    triangulate outer holes par = .error .crossingConstraints := by
  cases hb : buildAll (outer ++ holesFlat holes) with
  | error e =>
      rw [hb] at h2
      simp [exMOkB] at h2
  | ok m => simp [triangulate, prefixPhase, h1, hb, h3]

/-- Witness for C4 (amended): a hole triangle sticking out of the outer
square, sharing no vertex with it: the call reaches enforcement and fails
with CrossingConstraints. -/
theorem c4_witness :
    triangulate cxOuter [cxHole] defaultParams = .error .crossingConstraints :=
  c4_crossing_rejected cxOuter [cxHole] defaultParams (by decide) (by decide) (by decide)

/-- Counterexample to C4 as frozen: the bowtie outer loop has two constraint
segments that properly cross, yet the call fails with InvalidPolygon (raised
by the earlier validation phase), not CrossingConstraints; it still returns
no mesh. -/
theorem c4_error_precedence_cx :
    anyConstraintCrossB bowtie [] = true ∧
    (match triangulate bowtie [] defaultParams with
     | .error TErr.crossingConstraints => true
     | _ => false) = false ∧
    exOkB (triangulate bowtie [] defaultParams) = false :=
  ⟨by decide, by decide, by decide⟩

/-- Claim C3: for the 100 x 100 square with the centred 50 x 50 hole, the
default call (triangulate_holes false) returns no triangle whose centroid
lies strictly inside the hole loop, and the same call with
triangulate_holes true returns at least one such triangle. -/
theorem c3_hole_exclusion :
    (match triangulate sqHundred [holeFifty] defaultParams with
     | .ok r => r.triangles.all (fun t => !(pipB holeFifty (triCentroid r.vertices t)))
     | .error _ => false) = true ∧
    (match triangulate sqHundred [holeFifty] (Params.mk none none true) with
     | .ok r => r.triangles.any (fun t => pipB holeFifty (triCentroid r.vertices t))
     | .error _ => false) = true :=
  ⟨by decide, by decide⟩

/-- First refinement work item of a mesh under the max_edge_length 10
request (dummy fallback when none exists). -/
def c7Issue (m : Mesh) : Iss := (findIssue meTen m).getD (Iss.bad (0, 0, 0))

/-- Mesh after acting on that first work item (identity fallback). -/
def c7After (m : Mesh) : Mesh := (applyIss m (c7Issue m)).getD m

/-- Claim C7: for every polygon (with any holes), the triangle count returned
with max_edge_length 10 is at least the count returned with no refinement
parameters (refinement only ever inserts points, and every insertion adds
triangles), and for the 100 x 100 square it is strictly greater. -/
theorem c7_refinement_monotonic :
    (∀ outer holes,
        triCountR (triangulate outer holes defaultParams) ≤
          triCountR (triangulate outer holes meTen)) ∧
    triCountR (triangulate sqHundred [] defaultParams) <
      triCountR (triangulate sqHundred [] meTen) := by
  have hRR : ∀ (outer : List Pt) (holes : List (List Pt)) (m : Mesh),
      refineRun (steinerMult * inputCount outer holes) meTen m =
        refineLoop (steinerMult * inputCount outer holes) meTen
          ((steinerMult * inputCount outer holes) + 1) m 0 := by
    intro outer holes m
    simp [refineRun, inertParams, meTen]
  constructor
  · intro outer holes
    cases hp : prefixPhase outer holes false with
    | error e =>
        have hL : triangulate outer holes defaultParams = .error e := by
          simp [triangulate, defaultParams, hp]
        have hR : triangulate outer holes meTen = .error e := by
          simp [triangulate, meTen, hp]
        rw [hL, hR]
    | ok m =>
        have hL := triangulate_of_prefix_ok outer holes defaultParams m hp
        have hR := triangulate_of_prefix_ok outer holes meTen m hp
        rw [hL, hR,
          refineRun_inert (steinerMult * inputCount outer holes) defaultParams m rfl,
          hRR outer holes m]
        simp only [triCountR, exportRes_tri_length]
        exact refineLoop_tris_ge _ meTen _ m 0
  · have hpre : exMOkB (prefixPhase sqHundred [] false) = true := by decide
    cases hp : prefixPhase sqHundred [] false with
    | error e =>
        rw [hp] at hpre
        simp [exMOkB] at hpre
    | ok m =>
        have hm : c7m = m := by unfold c7m; rw [hp]
        have hIss : (findIssue meTen c7m).isSome = true := by decide
        have hApp : (applyIss c7m (c7Issue c7m)).isSome = true := by decide
        have hCnt : c7m.tris.length < (c7After c7m).tris.length := by decide
        cases hiss : findIssue meTen c7m with
        | none => rw [hiss] at hIss; simp at hIss
        | some iss =>
            have hio : c7Issue c7m = iss := by
              unfold c7Issue
              rw [hiss]
              rfl
            rw [hio] at hApp
            cases happ : applyIss c7m iss with
            | none => rw [happ] at hApp; simp at hApp
            | some m2 =>
                have hao : c7After c7m = m2 := by
                  unfold c7After
                  rw [hio, happ]
                  rfl
                rw [hao] at hCnt
                rw [hm] at hiss happ hCnt
                have hL := triangulate_of_prefix_ok sqHundred [] defaultParams m hp
                have hR := triangulate_of_prefix_ok sqHundred [] meTen m hp
                rw [hL, hR,
                  refineRun_inert (steinerMult * inputCount sqHundred []) defaultParams m rfl,
                  hRR sqHundred [] m]
                simp only [triCountR, exportRes_tri_length]
                have hB0 : ¬ (steinerMult * inputCount sqHundred [] ≤ 0) := by decide
                have hstep : refineLoop (steinerMult * inputCount sqHundred []) meTen
                    ((steinerMult * inputCount sqHundred []) + 1) m 0 =
                    refineLoop (steinerMult * inputCount sqHundred []) meTen
                      (steinerMult * inputCount sqHundred []) m2 1 := by
                  simp only [refineLoop, hiss]
                  rw [if_neg hB0]
                  simp only [happ]
                rw [hstep]
                have hge := refineLoop_tris_ge (steinerMult * inputCount sqHundred []) meTen
                    (steinerMult * inputCount sqHundred []) m2 1
                omega
